import Mathlib

/-!
Verification development for the query-compilation service
(src/services/query_parse.py and src/services/serialization.py).

The Python code is shallowly embedded: pure functions become Lean
functions, Python exceptions become an explicit `Err` error type through
the `Except` monad, Python dicts become association lists keyed by
strings (insertion order preserved, as in Python 3), and SQLAlchemy
query objects become explicit records describing the query that the
code assembles.  Machine integers do not occur in the modelled code
paths.  The data structures imported from services/query_parser.py
(ActionTree, NestedField, FilterAction, SortAction, SortOrder) are not
part of the repository snapshot, so they are modelled from the
specification (section 3 of spec.md); each such definition carries a
doc comment starting with "Modelled from the spec:".
-/

namespace QueryParse

/-- Modelled from the spec: sort order, ASC or DESC (SortSpec, spec section 3). -/
inductive SortOrder where
  | ASC
  | DESC
deriving DecidableEq, Repr

/-- SQLAlchemy RelationshipDirection.  The source matches on the three
members ONETOMANY, MANYTOONE, MANYTOMANY and has a catch-all arm
raising SQLGenerationException for anything else
(query_parse.py lines 46-58); the constructor `other` stands for any
value outside the three known members, so that the catch-all arm is
representable. -/
inductive RelationshipDirection where
  | ONETOMANY
  | MANYTOONE
  | MANYTOMANY
  | other
deriving DecidableEq, Repr

/-- Modelled from the spec: a FieldPath, an ordered non-empty sequence of
name segments (spec section 3).  A single-segment path (`plain`) addresses a
field on the current entity; a multi-segment path (NestedField in the
source, `nested` here) traverses relations.  `nested` keeps the head
segment separate so the sequence is non-empty by construction. -/
inductive FieldRef where
  | plain (name : String)
  | nested (head : String) (tail : List String)
deriving DecidableEq, Repr

/-- Modelled from the spec: `shiftDown()` removes the leading segment of a
FieldPath, producing the path as seen from the next entity; it is defined
only on paths of length at least 2 (spec section 3).  On a two-segment path the
result is a single-segment (direct) field, since the pushed-down filter
is consumed by `serializer.get_serializer_field(flt.field)` at the next
level, which expects a plain alias.  The `plain` and single-segment
`nested` arms are junk values for inputs outside the documented domain. -/
def FieldRef.shiftDown : FieldRef → FieldRef
  | .nested _ (b :: rest) => if rest.isEmpty then .plain b else .nested b rest
  | .nested h [] => .plain h
  | .plain a => .plain a

/-- Filter operators.  The source carries SQLAlchemy operator callables
opaquely; the compiler never inspects them, it only applies them to a
column and a value.  The common comparison operators are modelled. -/
inductive FilterOp where
  | opEq
  | opNe
  | opLt
  | opGt
deriving DecidableEq, Repr

/-- Modelled from the spec: FilterSpec, `{field, operator, value}` (spec
section 3).  Values are modelled as integers; the compiler treats them
opaquely, and integer values suffice for every claim. -/
structure FilterAction where
  field : FieldRef
  op : FilterOp
  value : Int
deriving DecidableEq, Repr

/-- Modelled from the spec: SortSpec, `{field, order}` (spec section 3). -/
structure SortAction where
  field : FieldRef
  order : SortOrder
deriving DecidableEq, Repr

/-- Modelled from the spec: the ActionTree (query specification, spec
section 3): select list (None or an explicit list of aliases, possibly
with the wildcard marker or exclusion-prefixed entries), filters, an
optional sort, the relation-name to nested-specification mapping, and
offset/limit.  The relations dict is an association list preserving
insertion order, as Python dicts do. -/
inductive ActionTree where
  | mk (select : Option (List String)) (filters : List FilterAction)
       (sort : Option SortAction) (relations : List (String × ActionTree))
       (offset : Option Nat) (limit : Option Nat)

def ActionTree.select : ActionTree → Option (List String)
  | .mk s _ _ _ _ _ => s

def ActionTree.filters : ActionTree → List FilterAction
  | .mk _ f _ _ _ _ => f

def ActionTree.sort : ActionTree → Option SortAction
  | .mk _ _ s _ _ _ => s

def ActionTree.relations : ActionTree → List (String × ActionTree)
  | .mk _ _ _ r _ _ => r

def ActionTree.offset : ActionTree → Option Nat
  | .mk _ _ _ _ o _ => o

def ActionTree.limit : ActionTree → Option Nat
  | .mk _ _ _ _ _ l => l

/-- Modelled from the spec: `ActionTree()` with default attribute values,
an empty specification (no select decided yet, no filters, no sort, no
relations, no pagination).  The source constructs these when it
synthesizes relation entries (query_parse.py lines 111-113, 181-185,
389-391). -/
def ActionTree.empty : ActionTree := .mk none [] none [] none none

/-- Replace the filters of a specification (models in-place mutation of
`rel_action.filters`). -/
def ActionTree.withFilters : ActionTree → List FilterAction → ActionTree
  | .mk s _ so r o l, f => .mk s f so r o l

/-- Replace the sort of a specification (models in-place mutation of
`rel_action.sort`). -/
def ActionTree.withSort : ActionTree → Option SortAction → ActionTree
  | .mk s f _ r o l, so => .mk s f so r o l

/-- Replace the select of a specification (models `rel_action.select = ...`). -/
def ActionTree.withSelect : ActionTree → Option (List String) → ActionTree
  | .mk _ f so r o l, s => .mk s f so r o l

/-- Replace offset and limit (used only to state that the relation
resolver ignores them). -/
def ActionTree.withPagination : ActionTree → Option Nat → Option Nat → ActionTree
  | .mk s f so r _ _, o, l => .mk s f so r o l

/-- SerializerField from src/services/serialization.py lines 6-9:
a storage field name plus an external alias (the constructor there
defaults the alias to the field name; fixtures pass it explicitly). -/
structure SerializerField where
  field : String
  aliasName : String
deriving DecidableEq, Repr

/-- One relationship entry of a SQLAlchemy model inspection, as consumed
by query_parse.py: its direction, the target model, and the two sides of
the primaryjoin.  `childJoinCol` is the primaryjoin column that lives on
the related (child) model and `parentJoinCol` the one on the parent
model; query_parse.py recovers them by testing membership of
`primaryjoin.left` in the respective model's columns (lines 138-141,
296-303).  Model primary keys are the column named "id", as the source
assumes by using `model.id` throughout. -/
structure SqlRelation where
  direction : RelationshipDirection
  targetModel : Nat
  childJoinCol : String
  parentJoinCol : String
deriving DecidableEq, Repr

/-- A serializer class (src/services/serialization.py BaseSerializer):
its model (identified by a numeric id), its declared fields, and the
model inspection data the query compiler reads: the relationships
mapping (keyed by storage name) and the model's column names. -/
structure Serializer where
  model : Nat
  fields : List SerializerField
  relationships : List (String × SqlRelation)
  modelColumns : List String
deriving DecidableEq, Repr

/-- The errors the embedded code can signal.  Each constructor stands for
one Python exception site: `unknownDbField` and `unknownSerializerField`
for the two `raise Exception` sites in serialization.py, `valueError`
for `list.remove` on a missing element, `keyError` for indexing a
mapping or subquery columns with a missing key, `typeErrorNoneIter` for
iterating None, `attributeErrorNone` for calling a method on None,
`sqlGeneration` for SQLGenerationException, and `outOfFuel` for
exhaustion of the recursion fuel of the model (never reached with
adequate fuel). -/
inductive Err where
  | unknownDbField (f : String)
  | unknownSerializerField (a : String)
  | valueError
  | keyError (k : String)
  | typeErrorNoneIter
  | attributeErrorNone
  | sqlGeneration
  | outOfFuel
deriving DecidableEq, Repr

/-- Association-list lookup by string key (Python dict read). -/
def alookup {α : Type} : List (String × α) → String → Option α
  | [], _ => none
  | (k, v) :: rest, key => if k = key then some v else alookup rest key

/-- The process-wide serializer registry `__serializers__`
(serialization.py line 42), an insertion-ordered mapping from model to
serializer class. -/
abbrev Registry : Type := List (Nat × Serializer)

/-- Registry lookup by model id (Python dict read, first matching key). -/
def regLookup : Registry → Nat → Option Serializer
  | [], _ => none
  | (k, v) :: rest, key => if k = key then some v else regLookup rest key

/-- `BaseSerializer.__init_subclass__` (serialization.py lines 24-25):
defining a serializer subclass executes
`__serializers__[cls.model] = cls`, a plain dict assignment: if the
model is already a key its value is replaced in place, otherwise the
pair is appended. -/
def registerSerializer (reg : Registry) (m : Nat) (s : Serializer) : Registry :=
  match reg with
  | [] => [(m, s)]
  | (k, v) :: rest =>
      if k = m then (k, s) :: rest else (k, v) :: registerSerializer rest m s

/-- `get_serializer` (serialization.py lines 45-46):
`__serializers__.get(_type, None)` — returns None when the model is not
registered, never raises. -/
def getSerializer (reg : Registry) (t : Nat) : Option Serializer :=
  regLookup reg t

/-- `get_prop_serializer` (serialization.py lines 49-52): looks up the
serializer of `_type` and immediately calls `get_model_inspection()` on
it with no None check (an AttributeError when the lookup returned
None), indexes its relationships by `prop` (a KeyError when absent),
and returns `get_serializer` of the relationship target, which may
itself be None. -/
def getPropSerializer (reg : Registry) (t : Nat) (prop : String) :
    Except Err (Option Serializer) :=
  match getSerializer reg t with
  | none => .error .attributeErrorNone
  | some s =>
      match alookup s.relationships prop with
      | none => .error (.keyError prop)
      | some rel => .ok (getSerializer reg rel.targetModel)

/-- `BaseSerializer.get_db_field` (serialization.py lines 27-32): scan
the serializer's fields for one whose storage name equals `dbField` and
return the model's column of that name, raising otherwise.  The column
is represented by its name. -/
def getDbField (ser : Serializer) (dbField : String) : Except Err String :=
  if ser.fields.any (fun f => f.field = dbField) then .ok dbField
  else .error (.unknownDbField dbField)

/-- `BaseSerializer.get_serializer_field` (serialization.py lines 34-39):
scan the serializer's fields for one whose alias equals `fieldAlias`,
raising otherwise. -/
def getSerializerField (ser : Serializer) (fieldAlias : String) :
    Except Err SerializerField :=
  match ser.fields.find? (fun f => f.aliasName = fieldAlias) with
  | some f => .ok f
  | none => .error (.unknownSerializerField fieldAlias)

/-- Python `field.startswith(EXCLUDE_COLUMN_PREFIX)` with
`EXCLUDE_COLUMN_PREFIX = "!"` (query_parse.py lines 16, 91, 327): test
whether the first character is the exclusion marker. -/
def hasExcludeMarker (s : String) : Bool :=
  match s.toList with
  | '!' :: _ => true
  | _ => false

/-- Python `field[1:]` on an exclusion-prefixed entry (query_parse.py
lines 97, 334): the alias with the marker removed. -/
def stripExcludeMarker (s : String) : String :=
  String.mk (s.toList.drop 1)

/-- The non-relation fields of a serializer: the list comprehension
`[f for f in serializer.fields if f.field not in inspection.relationships]`
that appears at query_parse.py lines 78-82, 92-96, 314-320, 328-332,
356-360. -/
def nonRelationFields (ser : Serializer) : List SerializerField :=
  ser.fields.filter (fun f => (alookup ser.relationships f.field).isNone)

/-- Python `list.remove`: delete the first element equal to `x`, raising
ValueError when no element matches (used at query_parse.py lines 97 and
333-335). -/
def listRemove : List SerializerField → SerializerField →
    Except Err (List SerializerField)
  | [], _ => .error .valueError
  | y :: ys, x =>
      if y = x then .ok ys
      else do
        let r ← listRemove ys x
        .ok (y :: r)

/-- The exclusion loop shared verbatim by `_json_query` (query_parse.py
lines 90-97) and `_relation_select` (lines 326-335): for every
exclusion-prefixed entry of the select list, reset the working field
list to the full non-relation field list, then remove the referenced
field. -/
def applyExclusions (ser : Serializer) (sel : List String)
    (acc : List SerializerField) : Except Err (List SerializerField) :=
  match sel with
  | [] => .ok acc
  | entry :: rest =>
      if hasExcludeMarker entry then do
        let fld ← getSerializerField ser (stripExcludeMarker entry)
        let acc' ← listRemove (nonRelationFields ser) fld
        applyExclusions ser rest acc'
      else applyExclusions ser rest acc

/-- The initial working list of the root-level Selection Rule
(query_parse.py lines 75-88): all non-relation fields under a wildcard,
otherwise the resolved aliases with exclusion-prefixed entries
skipped. -/
def jsonQueryBase (ser : Serializer) (sel : List String) :
    Except Err (List SerializerField) :=
  if sel.any (fun f => f = "*") then .ok (nonRelationFields ser)
  else (sel.filter (fun a => ¬ hasExcludeMarker a)).mapM
    (getSerializerField ser)

/-- The `_field_to_select` computation of `_json_query` (query_parse.py
lines 75-97): the initial working list, then the exclusion loop. -/
def jsonQueryFieldToSelect (ser : Serializer) (sel : List String) :
    Except Err (List SerializerField) := do
  let base ← jsonQueryBase ser sel
  applyExclusions ser sel base

/-- Insert a column into the `fld` set when absent (Python `set.add`;
the set is modelled as a duplicate-free list, order immaterial to every
stated property). -/
def insertCol (cols : List String) (c : String) : List String :=
  if c ∈ cols then cols else cols ++ [c]

/-- Deduplicate a column list into a set (Python `set(...)` built from a
generator, query_parse.py line 336-338). -/
def dedupCols : List String → List String
  | [] => []
  | c :: rest => insertCol (dedupCols rest) c

/-- The loop at query_parse.py lines 342-351: for every direct
(non-nested) filter of the nested specification, add the column it
references to the `fld` set; nested filters are skipped here. -/
def addFilterCols (ser : Serializer) (flts : List FilterAction)
    (cols : List String) : Except Err (List String) :=
  match flts with
  | [] => .ok cols
  | flt :: rest =>
      match flt.field with
      | .nested _ _ => addFilterCols ser rest cols
      | .plain a => do
          let sf ← getSerializerField ser a
          let c ← getDbField ser sf.field
          addFilterCols ser rest (insertCol cols c)

/-- The initial working list of the relation-level Selection Rule
(query_parse.py lines 310-325): all non-relation fields under a
wildcard, otherwise every select entry resolved by alias — including
exclusion-prefixed entries, which `_relation_select` does not skip
here, unlike `_json_query`. -/
def relationSelectBase (ser : Serializer) (sel : List String) :
    Except Err (List SerializerField) :=
  if sel.any (fun f => f = "*") then .ok (nonRelationFields ser)
  else sel.mapM (getSerializerField ser)

/-- The projection step of `_relation_select` (query_parse.py lines
307-360).  Returns the columns selected by the inner row query `q`
together with `_field_to_select`, the fields that go into the JSON
object.  The `if action.select:` test is Python truthiness: both None
and the empty list take the else branch, which selects the whole model
row.  In the truthy branch the non-wildcard working list resolves every
select entry, including exclusion-prefixed ones (unlike `_json_query`,
which skips them there); the exclusion loop, the foreign-key column for
non-MANY_TO_MANY relations with a child-side key, the direct-filter
columns, and the id column are then applied in source order. -/
def relationSelectFields (ser : Serializer) (hasParentIdCol : Bool)
    (dir : RelationshipDirection) (childJoinCol : String)
    (flts : List FilterAction) (sel : Option (List String)) :
    Except Err (List String × List SerializerField) :=
  match sel with
  | some (s0 :: srest) => do
      let selList := s0 :: srest
      let base ← relationSelectBase ser selList
      let fieldToSelect ← applyExclusions ser selList base
      let cols ← fieldToSelect.mapM (fun f => getDbField ser f.field)
      let fld := dedupCols cols
      let fld :=
        if hasParentIdCol && (dir != .MANYTOMANY) then insertCol fld childJoinCol
        else fld
      let fld ← addFilterCols ser flts fld
      let idCol ← getDbField ser "id"
      .ok (insertCol fld idCol, fieldToSelect)
  | _ => .ok (ser.modelColumns, nonRelationFields ser)

/-- The outcome of partitioning the filters of one specification
(query_parse.py lines 104-131 in `_json_query`, lines 378-409 in
`_relation_select`): the relations mapping after synthesis and filter
push-down, the direct filters in source order, and `_inner_cte`, the
list of leading path segments of the dotted filters. -/
structure PartOut where
  relations : List (String × ActionTree)
  direct : List FilterAction
  innerCte : List String

/-- Locate or synthesize the relation named `head` and append the
shifted-down filter to its nested specification: the body of the
NestedField branch of the partition loop (query_parse.py lines 108-121
and 384-399).  `synthSelect` is the select given to a synthesized entry:
None at the root compiler level, the list containing only "id" during
relation resolution. -/
def upsertRelFilter (synthSelect : Option (List String)) (head : String)
    (shifted : FilterAction) :
    List (String × ActionTree) → List (String × ActionTree)
  | [] => [(head, (ActionTree.empty.withSelect synthSelect).withFilters [shifted])]
  | (n, t) :: rest =>
      if n = head then (n, t.withFilters (t.filters ++ [shifted])) :: rest
      else (n, t) :: upsertRelFilter synthSelect head shifted rest

/-- The filter partition loop (query_parse.py lines 104-131 and 378-409):
walk the filters in order; a NestedField filter locates or synthesizes
the relation named by its leading segment, appends the shifted-down
remainder as a new filter on that relation's nested specification, and
records the leading segment in `_inner_cte`; a plain filter is kept as a
direct filter.  (In the source the direct filters are resolved to
column predicates inside the same loop; the model resolves them in a
separate pass, `resolveDirectFilters`, with the same error sites.) -/
def partitionFilters (synthSelect : Option (List String)) :
    List FilterAction → List (String × ActionTree) → PartOut
  | [], rels => ⟨rels, [], []⟩
  | flt :: rest, rels =>
      match flt.field with
      | .nested h t =>
          let shifted : FilterAction :=
            ⟨FieldRef.shiftDown (.nested h t), flt.op, flt.value⟩
          let out := partitionFilters synthSelect rest
            (upsertRelFilter synthSelect h shifted rels)
          ⟨out.relations, out.direct, h :: out.innerCte⟩
      | .plain a =>
          let out := partitionFilters synthSelect rest rels
          ⟨out.relations, ⟨.plain a, flt.op, flt.value⟩ :: out.direct, out.innerCte⟩

/-- A direct filter resolved to a column predicate, the result of
`flt_item.operator(column, flt_item.value)`. -/
structure ResolvedFilter where
  col : String
  op : FilterOp
  value : Int
deriving DecidableEq, Repr

/-- Resolution of the direct filters of `_json_query` (query_parse.py
lines 124-131): each plain filter's alias is resolved through
`get_serializer_field` and then `get_db_field`.  Nested filters were
consumed by the partition and cannot occur here; the nested arm is
unreachable junk. -/
def resolveDirectFilters (ser : Serializer) (flts : List FilterAction) :
    Except Err (List ResolvedFilter) :=
  flts.mapM (fun flt =>
    match flt.field with
    | .plain a => do
        let sf ← getSerializerField ser a
        let c ← getDbField ser sf.field
        .ok (⟨c, flt.op, flt.value⟩ : ResolvedFilter)
    | .nested _ _ => .error (.keyError "nested"))

/-- Resolution of the direct filters of `_relation_select`
(query_parse.py lines 404-409): each plain filter's alias is resolved
through `get_serializer_field` and the predicate column is read off the
subquery `q` (`q.c[...]`, a KeyError when the column was not
selected). -/
def resolveDirectFiltersQ (ser : Serializer) (qCols : List String)
    (flts : List FilterAction) : Except Err (List ResolvedFilter) :=
  flts.mapM (fun flt =>
    match flt.field with
    | .plain a => do
        let sf ← getSerializerField ser a
        if sf.field ∈ qCols then .ok (⟨sf.field, flt.op, flt.value⟩ : ResolvedFilter)
        else .error (.keyError sf.field)
    | .nested _ _ => .error (.keyError "nested"))

/-- JSON values, as produced by the SQLite JSON functions the compiled
query uses (json, json_object, json_group_array, json_extract). -/
inductive Json where
  | null
  | num (n : Int)
  | str (s : String)
  | arr (xs : List Json)
  | obj (kvs : List (String × Json))

/-- `func.json_group_array(...)` over the rows of one group: a JSON
array holding one entry per aggregated row (query_parse.py lines
418-421). -/
def jsonGroupArray (rows : List Json) : Json := .arr rows

/-- `func.json_extract(obj, "$[0]")`: the first element of a JSON array,
SQL NULL when the array is empty or the value is not an array
(query_parse.py line 51). -/
def jsonExtractFirst : Json → Json
  | .arr (x :: _) => x
  | _ => .null

/-- The per-direction aggregate selection of `_resolve_relationships`
(query_parse.py lines 45-58): for ONETOMANY and MANYTOMANY the payload
is `func.json(cte.obj)` (modelled as the identity on JSON values) with
else-branch `func.json("[]")`, the empty array; for MANYTOONE it is
`func.json_extract(cte.obj, "$[0]")` with the else-branch left at None,
i.e. SQL NULL; any other direction raises SQLGenerationException.  The
result pairs the aggregate function with the else value of the CASE
expression built at lines 59-64. -/
def relationAggCase (dir : RelationshipDirection) :
    Except Err ((Json → Json) × Json) :=
  match dir with
  | .ONETOMANY => .ok (fun obj => obj, Json.arr [])
  | .MANYTOONE => .ok (jsonExtractFirst, Json.null)
  | .MANYTOMANY => .ok (fun obj => obj, Json.arr [])
  | .other => .error .sqlGeneration

/-- The value of the CASE expression of `_resolve_relationships`
(query_parse.py lines 59-64) for one parent row: when the LEFT/INNER
join to the relation fragment found a row (`cte.id IS NOT NULL`),
apply the direction's aggregate function to the fragment's `obj`
column; otherwise produce the direction's else value. -/
def relationJsonValue (dir : RelationshipDirection) (cteObj : Option Json) :
    Except Err Json := do
  let ac ← relationAggCase dir
  .ok (match cteObj with
    | some obj => ac.1 obj
    | none => ac.2)

/-- The `obj` column the relation fragment exposes to the parent query
for one join-key group: `json_group_array` of the matched rows when the
group is non-empty, and no row at all (hence, through the outer join,
SQL NULL for both `cte.obj` and `cte.id`) when no row matched
(query_parse.py lines 418-428 produce one CTE row per non-empty
group only). -/
def cteObjFor (matched : List Json) : Option Json :=
  if matched.isEmpty then none else some (jsonGroupArray matched)

/-- One value position of the JSON projection object: either a plain
column or the CASE expression embedding a relation payload of the given
direction (whose row semantics is `relationJsonValue`). -/
inductive ValExpr where
  | col (dbField : String)
  | relCase (dir : RelationshipDirection)
deriving DecidableEq, Repr

/-- The compiled relation fragment (the NOT MATERIALIZED CTE returned by
`_relation_select`, query_parse.py lines 283-471): the columns of the
inner row query `q`, the alias/value pairs of the JSON object, the
ordering applied before aggregation, the accumulated direct filter
predicates, the joins to nested relation fragments with their INNER
flag, whether the CTE's key column is `parent_model.id` rather than the
child-side foreign key, and whether the association-table joins of the
MANY_TO_MANY branch are emitted. -/
structure RelCte where
  qCols : List String
  jsonFields : List (String × ValExpr)
  orderBy : Option (String × SortOrder)
  filters : List ResolvedFilter
  joins : List (String × Bool)
  keyFromParentModel : Bool
  m2m : Bool
deriving DecidableEq, Repr

/-- Index the model inspection's relationships mapping
(`_model_inspect.relationships[...]`), a KeyError when absent. -/
def lookupRelationship (ser : Serializer) (fieldName : String) :
    Except Err SqlRelation :=
  match alookup ser.relationships fieldName with
  | some r => .ok r
  | none => .error (.keyError fieldName)

/-- Calling a method on the result of a serializer lookup: an
AttributeError when the lookup produced None. -/
def requireSerializer (sOpt : Option Serializer) : Except Err Serializer :=
  match sOpt with
  | some s => .ok s
  | none => .error .attributeErrorNone

/-- Reading a named column off a subquery (`q.c.id` / `q.c[...]`), a
KeyError when the column was not selected. -/
def requireCol (qCols : List String) (c : String) : Except Err Unit :=
  if c ∈ qCols then .ok () else .error (.keyError c)

/-- The pre-aggregation ORDER BY of `_relation_select` (query_parse.py
lines 362-369).  The source passes the raw sort field value to
`get_db_field`, which compares it against storage names: a plain alias
is looked up as a storage name, and a NestedField value never equals a
storage name string, raising the unknown-field exception. -/
def relationOrderBy (ser : Serializer) (srt : Option SortAction) :
    Except Err (Option (String × SortOrder)) :=
  match srt with
  | none => .ok none
  | some st =>
      match st.field with
      | .plain a => do
          let c ← getDbField ser a
          .ok (some (c, st.order))
      | .nested _ _ => .error (.unknownDbField "NestedField")

/-- The JSON payload contribution of one relation in
`_resolve_relationships` (query_parse.py lines 43-64): nothing when the
nested specification's select is None; otherwise the alias followed by
the CASE expression, raising SQLGenerationException for an unsupported
direction before anything is emitted. -/
def relationPayloadEntry (relationName : String)
    (sel : Option (List String)) (dir : RelationshipDirection) :
    Except Err (List (String × ValExpr)) :=
  match sel with
  | some _ => do
      let _ ← relationAggCase dir
      .ok [(relationName, ValExpr.relCase dir)]
  | none => .ok []

mutual

/-- `_relation_select` (query_parse.py lines 283-471), fuelled on
recursion depth.  Steps in source order: primaryjoin side detection
(lines 296-306), projection (307-360, `relationSelectFields`), the
pre-aggregation ORDER BY for a direct sort — note the source passes the
raw sort field to `get_db_field`, which compares it against storage
names, and a NestedField sort value never equals a storage name string
(lines 362-369) — the alias/column pairs read off the subquery
(372-376), filter partition with push-down and synthesis (378-409),
nested relation resolution against `q.c.id` (411-415), and CTE assembly
with join flags, grouping side and MANY_TO_MANY association joins
(418-471).  The nested fragment returned by the recursive call is
consumed for its errors; its payload reaches the parent only through
the CASE expression recorded by `resolveRelList`. -/
def relationSelect : Nat → Registry → Serializer → Nat → SqlRelation →
    ActionTree → Except Err RelCte
  | 0, _, _, _, _, _ => .error .outOfFuel
  | fuel + 1, reg, ser, _parentModel, rel, action => do
      let hasParentIdCol := rel.childJoinCol != "id"
      let proj ← relationSelectFields ser hasParentIdCol rel.direction
        rel.childJoinCol action.filters action.select
      let qCols := proj.1
      let fieldToSelect := proj.2
      let orderBy ← relationOrderBy ser action.sort
      let jsonFields ← fieldToSelect.mapM (fun f =>
        if f.field ∈ qCols then .ok (f.aliasName, ValExpr.col f.field)
        else .error (.keyError f.field))
      let part := partitionFilters (some ["id"]) action.filters action.relations
      let filterItems ← resolveDirectFiltersQ ser qCols part.direct
      let _ ← requireCol qCols "id"
      let res ← resolveRelList fuel reg ser part.relations
      let joins := res.2.map (fun n => (n, decide (n ∈ part.innerCte)))
      .ok ⟨qCols, jsonFields ++ res.1, orderBy, filterItems, joins,
        (!hasParentIdCol) || (rel.direction == .MANYTOMANY),
        rel.direction == .MANYTOMANY⟩
termination_by structural fuel _ _ _ _ _ => fuel

/-- `_resolve_relationships` (query_parse.py lines 27-66): walk the
relations mapping in order; for each entry resolve the relation field,
the SQLAlchemy relationship, and the target serializer, recursively
compile the relation fragment, and — only when the nested
specification's select is not None — append the alias and the CASE
payload expression to the JSON fields, raising SQLGenerationException
for an unsupported direction; every entry contributes a join.  Returns
the JSON field additions and the join names in order. -/
def resolveRelList : Nat → Registry → Serializer →
    List (String × ActionTree) → Except Err (List (String × ValExpr) × List String)
  | 0, _, _, _ => .error .outOfFuel
  | _ + 1, _, _, [] => .ok ([], [])
  | fuel + 1, reg, ser, (relationName, relTree) :: rest => do
      let relSrcName ← getSerializerField ser relationName
      let sqlRel ← lookupRelationship ser relSrcName.field
      let relSerOpt ← getPropSerializer reg ser.model relSrcName.field
      let relSer ← requireSerializer relSerOpt
      let _relCte ← relationSelect fuel reg relSer ser.model sqlRel relTree
      let entry ← relationPayloadEntry relationName relTree.select
        sqlRel.direction
      let res ← resolveRelList fuel reg ser rest
      .ok (entry ++ res.1, relationName :: res.2)
termination_by structural fuel _ _ _ => fuel

end

/-- Python dict write `qo.relations[current_field] = rel_action` /
in-place mutation of an existing entry: replace the value when the key
is present, append otherwise. -/
def upsertRel : List (String × ActionTree) → String → ActionTree →
    List (String × ActionTree)
  | [], key, t => [(key, t)]
  | (n, v) :: rest, key, t =>
      if n = key then (n, t) :: rest else (n, v) :: upsertRel rest key t

/-- The segments of a sort field.  The source reads
`qo.sort.field.fields` unconditionally (query_parse.py line 159), so
sort fields are paths carrying a `fields` sequence; a single-segment
path takes the `len(field_stack) == 1` branch. -/
def FieldRef.fieldsList : FieldRef → List String
  | .plain a => [a]
  | .nested h t => h :: t

/-- The dotted-sort stack walk of `_json_query` (query_parse.py lines
174-211).  `field_stack` is the reversed segment list popped from the
end, i.e. the segments are processed front to back.  Every iteration —
including the one for the final segment — locates or synthesizes a
relation entry named after the current segment in the ROOT
specification's relations mapping and overwrites its sort with the
shifted-down original sort field (the shift is applied to the unchanged
original field each time, per the spec's reading of `shiftDown` as
producing a new path).  While segments remain, the source evaluates
`get_prop_serializer(serializer.model, field_stack[-1])` — looking the
NEXT segment up among the ROOT model's relationships — and discards the
result; on the final segment it resolves the field against
`get_serializer(serializer.model)`, the root serializer, and emits the
ORDER BY clause. -/
def sortWalk (reg : Registry) (ser : Serializer) (sortField : FieldRef)
    (order : SortOrder) :
    List String → List (String × ActionTree) →
    Except Err (List (String × ActionTree) × Option (String × SortOrder))
  | [], rels => .ok (rels, none)
  | current :: rest, rels => do
      let relAction := match alookup rels current with
        | some t => t
        | none => ActionTree.empty.withSelect none
      let relAction := relAction.withSort
        (some ⟨FieldRef.shiftDown sortField, order⟩)
      let rels := upsertRel rels current relAction
      match rest with
      | next :: _ => do
          let _ ← getPropSerializer reg ser.model next
          sortWalk reg ser sortField order rest rels
      | [] => do
          let serEnt ← match getSerializer reg ser.model with
            | some s => .ok s
            | none => .error .attributeErrorNone
          let sf ← getSerializerField serEnt current
          let db ← getDbField serEnt sf.field
          .ok (rels, some (db, order))

/-- Iterating the select value at query_parse.py line 75
(`any(... for _field in qo.select)`): a None select is not iterable and
raises TypeError. -/
def selectOrRaise (sel : Option (List String)) : Except Err (List String) :=
  match sel with
  | none => .error .typeErrorNoneIter
  | some l => .ok l

/-- The hidden id column of `_json_query` (query_parse.py lines
102-103): when "id" is not among the requested aliases, select the id
column without projecting it into the JSON object. -/
def jsonQueryHiddenId (ser : Serializer) (sel : List String) :
    Except Err (List String) :=
  if "id" ∈ sel then .ok []
  else do
    let c ← getDbField ser "id"
    .ok [c]

/-- The sort handling of `_json_query` (query_parse.py lines 157-211):
nothing without a sort; a single-segment sort field resolves through
`get_serializer_field` and `get_db_field` and orders the root rows; a
multi-segment field runs the stack walk `sortWalk`. -/
def jsonQuerySortStep (reg : Registry) (ser : Serializer)
    (srt : Option SortAction) (rels : List (String × ActionTree)) :
    Except Err (List (String × ActionTree) × Option (String × SortOrder)) :=
  match srt with
  | none => .ok (rels, none)
  | some st =>
      match st.field.fieldsList with
      | [a] => do
          let sf ← getSerializerField ser a
          let db ← getDbField ser sf.field
          .ok (rels, some (db, st.order))
      | fs => sortWalk reg ser st.field st.order fs rels

/-- The hidden foreign-key column loop of `_json_query` (query_parse.py
lines 135-145): for every relation entry — here the relationships
mapping is indexed by the relation NAME directly, not through
`get_serializer_field` — select the primaryjoin column on this model's
side as a hidden column when it is not the model's id column. -/
def hiddenFkCols (ser : Serializer) : List (String × ActionTree) →
    Except Err (List String)
  | [] => .ok []
  | (relationName, _) :: rest => do
      let sqlRel ← lookupRelationship ser relationName
      let cols ← hiddenFkCols ser rest
      .ok (if sqlRel.parentJoinCol ≠ "id" then sqlRel.parentJoinCol :: cols
           else cols)

/-- The query assembled by `_json_query` (query_parse.py lines 69-253):
the alias/value pairs of the JSON projection object, the hidden
selected columns (the id when not requested, plus relation foreign
keys), the relation-fragment joins with their INNER flag, the direct
filter predicates, the ORDER BY clause, offset, limit, the GROUP BY
column, and the relations mapping as it stands after compilation
(including entries synthesized by the sort walk after relation
resolution already ran). -/
structure CompiledQuery where
  fields : List (String × ValExpr)
  hidden : List String
  joins : List (String × Bool)
  whereFilters : List ResolvedFilter
  orderBy : Option (String × SortOrder)
  offset : Option Nat
  limit : Option Nat
  groupBy : String
  finalRelations : List (String × ActionTree)

/-- `_json_query` (query_parse.py lines 69-253), the root compiler, in
source order: iterate the select list — iterating a None select raises
TypeError at line 75 — resolve the projection (75-101), select the id
as a hidden column when it is not among the requested aliases
(102-103), partition the filters with relation synthesis and push-down
(104-131), resolve every relation (132-133), collect hidden foreign-key
columns (135-145), attach the joins with INNER exactly for the members
of `_inner_cte` (148-153), handle the sort (157-211; the dotted-sort
walk mutates the relations mapping only after relation resolution
already consumed it), and record offset, limit and the GROUP BY id
column (246-250). -/
def jsonQuery (fuel : Nat) (reg : Registry) (ser : Serializer)
    (qo : ActionTree) : Except Err CompiledQuery := do
  let sel ← selectOrRaise qo.select
  let fieldToSelect ← jsonQueryFieldToSelect ser sel
  let fields ← fieldToSelect.mapM (fun f => do
      let c ← getDbField ser f.field
      .ok (f.aliasName, ValExpr.col c))
  let hidden0 ← jsonQueryHiddenId ser sel
  let part := partitionFilters none qo.filters qo.relations
  let filters ← resolveDirectFilters ser part.direct
  let res ← resolveRelList fuel reg ser part.relations
  let hiddenFk ← hiddenFkCols ser part.relations
  let joins := res.2.map (fun n => (n, decide (n ∈ part.innerCte)))
  let sortRes ← jsonQuerySortStep reg ser qo.sort part.relations
  let gb ← getDbField ser "id"
  .ok ⟨fields ++ res.1, hidden0 ++ hiddenFk, joins, filters, sortRes.2,
    qo.offset, qo.limit, gb, sortRes.1⟩

/-! Row-level execution semantics for the compiled queries.  A database
row is an id plus named integer columns; the semantics below spell out
the standard meaning of the WHERE / GROUP BY / OFFSET / LIMIT clauses
and of inner versus left outer joins on the row sets the compiled
query ranges over. -/

/-- A stored row: the primary key and the named column values. -/
structure Row where
  id : Int
  cols : List (String × Int)
deriving DecidableEq, Repr

/-- Semantics of the modelled filter operators. -/
def FilterOp.eval : FilterOp → Int → Int → Bool
  | .opEq, a, b => a = b
  | .opNe, a, b => a ≠ b
  | .opLt, a, b => a < b
  | .opGt, a, b => a > b

/-- Evaluate one resolved filter predicate on a row; a missing column is
SQL NULL, which satisfies no comparison. -/
def evalResolvedFilter (f : ResolvedFilter) (r : Row) : Bool :=
  match alookup r.cols f.col with
  | none => false
  | some v => f.op.eval v f.value

/-- Conjunction of the direct filters (`q.filter(*_filters)` /
`and_(*filter_items)`). -/
def evalFilters (fs : List ResolvedFilter) (r : Row) : Bool :=
  fs.all (fun f => evalResolvedFilter f r)

/-- GROUP BY id helper: drop rows whose id was already seen. -/
def groupByIdAux (seen : List Int) : List Row → List Row
  | [] => []
  | r :: rest =>
      if r.id ∈ seen then groupByIdAux seen rest
      else r :: groupByIdAux (r.id :: seen) rest

/-- GROUP BY on the id column: one output row per distinct id, in first
occurrence order (the non-aggregated projected columns of such a group
come from one representative row, as in SQLite). -/
def groupById (rows : List Row) : List Row := groupByIdAux [] rows

/-- OFFSET semantics.  The source guards with Python truthiness
(`if qo.offset:`, query_parse.py line 246), so both None and 0 leave
the row set unchanged. -/
def applyOffset (o : Option Nat) (rows : List Row) : List Row :=
  match o with
  | none => rows
  | some n => if n = 0 then rows else rows.drop n

/-- LIMIT semantics, with the same truthiness guard
(query_parse.py line 248). -/
def applyLimit (l : Option Nat) (rows : List Row) : List Row :=
  match l with
  | none => rows
  | some n => if n = 0 then rows else rows.take n

/-- Row-set semantics of the compiled root query over a base table:
WHERE (the conjunction of the direct filters), GROUP BY the id column,
then OFFSET and LIMIT.  SQL applies LIMIT/OFFSET to the grouped result
regardless of the builder call order at query_parse.py lines 246-250. -/
def execCompiled (cq : CompiledQuery) (rows : List Row) : List Row :=
  applyLimit cq.limit
    (applyOffset cq.offset
      (groupById (rows.filter (evalFilters cq.whereFilters))))

/-- The join keys exposed by a relation fragment compiled over the
`children` rows with accumulated direct filters `flts`: the foreign-key
value of every child row satisfying the filters (exactly the non-empty
groups of the fragment CTE contribute their key). -/
def fragKeys (children : List Row) (fkCol : String)
    (flts : List ResolvedFilter) : List Int :=
  (children.filter (evalFilters flts)).filterMap
    (fun c => alookup c.cols fkCol)

/-- Parent-row preservation of one fragment join
(`q.join(cte, onclause=..., isouter=...)`): a LEFT OUTER join keeps
every parent row; an INNER join keeps exactly the parents whose join
key occurs among the fragment keys. -/
def joinedParents (isOuter : Bool) (parents : List Row) (keys : List Int) :
    List Row :=
  parents.filter (fun p => decide (p.id ∈ keys) || isOuter)

/-! Fixtures: a root entity (model 0) with scalar fields id, name, age
and a ONE_TO_MANY relation `a` to a child entity (model 1) with scalar
fields id, b and the foreign-key column root_id. -/

/-- Fixture relationship: ONE_TO_MANY from model 0 to model 1, child
foreign key `root_id`, parent side joined on `id`. -/
def relA : SqlRelation :=
  ⟨.ONETOMANY, 1, "root_id", "id"⟩

/-- Fixture root serializer (model 0). -/
def serRoot : Serializer :=
  ⟨0,
   [⟨"id", "id"⟩, ⟨"name", "name"⟩, ⟨"age", "age"⟩, ⟨"a", "a"⟩],
   [("a", relA)],
   ["id", "name", "age"]⟩

/-- Fixture child serializer (model 1). -/
def serChild : Serializer :=
  ⟨1,
   [⟨"id", "id"⟩, ⟨"b", "b"⟩],
   [],
   ["id", "b", "root_id"]⟩

/-- Fixture registry holding both serializers. -/
def regFix : Registry := [(0, serRoot), (1, serChild)]

/-- The leading relation name of a dotted filter, none for a direct
filter: the discrimination `isinstance(flt_item.field, NestedField)`
plus `flt_item.field.fields[0]` (query_parse.py lines 107-108,
381-386). -/
def nestedHeadOf (flt : FilterAction) : Option String :=
  match flt.field with
  | .nested h _ => some h
  | .plain _ => none

/-- The shifted-down filters that the partition loop pushes into the
relation named `r`, in source order. -/
def shiftedFiltersFor (r : String) (flts : List FilterAction) :
    List FilterAction :=
  (flts.filter (fun flt => nestedHeadOf flt = some r)).map
    (fun flt => ⟨flt.field.shiftDown, flt.op, flt.value⟩)

/-- One pass of the exclusion loop body succeeds for the entry `x`:
resolving the alias behind the marker and removing it from the full
non-relation field list produce a value rather than an exception. -/
def exclStepOk (ser : Serializer) (x : String) : Prop :=
  ∃ r, (do
    let fld ← getSerializerField ser (stripExcludeMarker x)
    listRemove (nonRelationFields ser) fld) = Except.ok r

/-! Fixtures with an unsupported relationship direction. -/

/-- Fixture relationship whose direction is outside the three supported
members. -/
def relO : SqlRelation := ⟨.other, 1, "root_id", "id"⟩

/-- Fixture root serializer whose relation `r` has the unsupported
direction. -/
def serRootO : Serializer :=
  ⟨0,
   [⟨"id", "id"⟩, ⟨"name", "name"⟩, ⟨"age", "age"⟩, ⟨"r", "r"⟩],
   [("r", relO)],
   ["id", "name", "age"]⟩

/-- Registry for the unsupported-direction fixtures. -/
def regO : Registry := [(0, serRootO), (1, serChild)]

/-- A second serializer for model 0, distinct from `serRoot`, used to
exhibit registry overwriting. -/
def serRootAlt : Serializer := ⟨0, [⟨"id", "id"⟩], [], ["id"]⟩

/-! Fixture specifications and their compiled forms. -/

/-- The dotted filter a.b = 5. -/
def fltAB : FilterAction := ⟨.nested "a" ["b"], .opEq, 5⟩

/-- Specification with the single dotted filter a.b = 5 and a wildcard
select. -/
def qoDot : ActionTree := .mk (some ["*"]) [fltAB] none [] none none

/-- The query `_json_query` compiles for `qoDot` over the fixtures: the
scalar projection, the hidden id, an INNER join to the fragment of the
synthesized relation `a` (select None, carrying the pushed-down filter
b = 5). -/
def cqDot : CompiledQuery :=
  ⟨[("id", .col "id"), ("name", .col "name"), ("age", .col "age")],
   ["id"], [("a", true)], [], none, none, none, "id",
   [("a", .mk none [⟨.plain "b", .opEq, 5⟩] none [] none none)]⟩

/-- Specification that requests relation `a` only for projection, with
no filter referencing it. -/
def qoProj : ActionTree :=
  .mk (some ["*"]) [] none [("a", .mk (some ["*"]) [] none [] none none)]
    none none

/-- The query compiled for `qoProj`: a LEFT OUTER join to the fragment
of `a`, whose payload CASE carries the ONE_TO_MANY shape. -/
def cqProj : CompiledQuery :=
  ⟨[("id", .col "id"), ("name", .col "name"), ("age", .col "age"),
    ("a", .relCase .ONETOMANY)],
   ["id"], [("a", false)], [], none, none, none, "id",
   [("a", .mk (some ["*"]) [] none [] none none)]⟩

/-- Pagination fixture: wildcard select, offset 2, limit 3. -/
def qoPage : ActionTree := .mk (some ["*"]) [] none [] (some 2) (some 3)

/-- Ten root rows with ids 1 to 10 in ascending order. -/
def tenRows : List Row :=
  [⟨1, []⟩, ⟨2, []⟩, ⟨3, []⟩, ⟨4, []⟩, ⟨5, []⟩,
   ⟨6, []⟩, ⟨7, []⟩, ⟨8, []⟩, ⟨9, []⟩, ⟨10, []⟩]

/-- Specification with one dotted filter r.b = 5 through the
unsupported-direction relation, which stays select-None when
synthesized. -/
def qoDotO : ActionTree :=
  .mk (some ["*"]) [⟨.nested "r" ["b"], .opEq, 5⟩] none [] none none

/-- The query compiled for `qoDotO`: the unsupported-direction relation
is joined INNER and compilation reports no error. -/
def cqDotO : CompiledQuery :=
  ⟨[("id", .col "id"), ("name", .col "name"), ("age", .col "age")],
   ["id"], [("r", true)], [], none, none, none, "id",
   [("r", .mk none [⟨.plain "b", .opEq, 5⟩] none [] none none)]⟩

/-- Specification declaring the unsupported-direction relation with an
explicit (not-None) select. -/
def qoSelR : ActionTree :=
  .mk (some ["*"]) [] none [("r", .mk (some ["b"]) [] none [] none none)]
    none none

/-! Supporting lemmas. -/

/-- Inversion of a successful `Except` bind. -/
theorem except_bind_ok {ε α β : Type} (e : Except ε α) (f : α → Except ε β)
    (c : β) : (e >>= f) = .ok c ↔ ∃ a, e = .ok a ∧ f a = .ok c := by
  cases e <;> simp [Bind.bind, Except.bind]

/-- `get_db_field` returns the column whose name is the requested
storage name whenever it succeeds. -/
theorem getDbField_ok {ser : Serializer} {f c : String}
    (h : getDbField ser f = .ok c) : c = f := by
  unfold getDbField at h
  split at h
  · cases h; rfl
  · cases h

/-- An association-list lookup fails exactly for the keys that are not
present. -/
theorem alookup_eq_none {α : Type} (l : List (String × α)) (k : String) :
    alookup l k = none ↔ k ∉ l.map Prod.fst := by
  induction l with
  | nil => simp [alookup]
  | cons p rest ih =>
      obtain ⟨k', v⟩ := p
      by_cases hk : k' = k
      · subst hk; simp [alookup]
      · simp [alookup, hk, ih, Ne.symm hk]

/-- A registry lookup fails exactly for the models that are not
registered. -/
theorem regLookup_eq_none (reg : Registry) (t : Nat) :
    regLookup reg t = none ↔ t ∉ reg.map Prod.fst := by
  induction reg with
  | nil => simp [regLookup]
  | cons p rest ih =>
      obtain ⟨k, v⟩ := p
      by_cases hk : k = t
      · subst hk; simp [regLookup]
      · simp [regLookup, hk, ih, Ne.symm hk]

/-- The exclusion loop leaves the working list untouched when no entry
carries the exclusion marker. -/
theorem applyExclusions_no_marker (ser : Serializer) :
    ∀ (sel : List String), (∀ e ∈ sel, hasExcludeMarker e = false) →
    ∀ acc, applyExclusions ser sel acc = .ok acc := by
  intro sel
  induction sel with
  | nil => intro _ acc; rfl
  | cons x rest ih =>
      intro h acc
      have hx : hasExcludeMarker x = false := h x (by simp)
      simp only [applyExclusions, hx, Bool.false_eq_true, if_false]
      exact ih (fun e he => h e (by simp [he])) acc

/-- The exclusion loop is determined by its last marker entry: whatever
the working list and the earlier entries (provided the earlier marker
entries resolve and remove without an exception), the result is the
full non-relation field list with the last marker's field removed. -/
theorem applyExclusions_last (ser : Serializer) (ys : List String)
    (e : String) (he : hasExcludeMarker e = true)
    (hys : ∀ y ∈ ys, hasExcludeMarker y = false) :
    ∀ (xs : List String),
      (∀ x ∈ xs, hasExcludeMarker x = true → exclStepOk ser x) →
    ∀ acc, applyExclusions ser (xs ++ e :: ys) acc =
      (do
        let fld ← getSerializerField ser (stripExcludeMarker e)
        listRemove (nonRelationFields ser) fld) := by
  intro xs
  induction xs with
  | nil =>
      intro _ acc
      simp only [List.nil_append, applyExclusions, he, if_true]
      cases hg : getSerializerField ser (stripExcludeMarker e) with
      | error err => simp [hg, Bind.bind, Except.bind]
      | ok fld =>
          cases hr : listRemove (nonRelationFields ser) fld with
          | error err => simp [hg, hr, Bind.bind, Except.bind]
          | ok acc' =>
              simp [hg, hr, Bind.bind, Except.bind,
                applyExclusions_no_marker ser ys hys acc']
  | cons x xs' ih =>
      intro hxs acc
      simp only [List.cons_append]
      by_cases hx : hasExcludeMarker x = true
      · obtain ⟨r, hrok⟩ := hxs x (by simp) hx
        rw [except_bind_ok] at hrok
        obtain ⟨fld, h1, h2⟩ := hrok
        simp only [applyExclusions, hx, if_true, h1, h2, Bind.bind,
          Except.bind]
        exact ih (fun z hz hm => hxs z (by simp [hz]) hm) r
      · simp only [applyExclusions, hx, if_false, Bool.not_eq_true] at *
        simp only [hx, Bool.false_eq_true, if_false]
        exact ih (fun z hz hm => hxs z (by simp [hz]) hm) acc

/-- Projection of `withFilters`. -/
@[simp] theorem ActionTree.filters_withFilters (t : ActionTree)
    (f : List FilterAction) : (t.withFilters f).filters = f := by
  cases t; rfl

/-- `withFilters` keeps the select. -/
@[simp] theorem ActionTree.select_withFilters (t : ActionTree)
    (f : List FilterAction) : (t.withFilters f).select = t.select := by
  cases t; rfl

/-- Projection of `withSelect`. -/
@[simp] theorem ActionTree.select_withSelect (t : ActionTree)
    (s : Option (List String)) : (t.withSelect s).select = s := by
  cases t; rfl

/-- Writing back a specification's own filters is the identity. -/
@[simp] theorem ActionTree.withFilters_self (t : ActionTree) :
    t.withFilters t.filters = t := by
  cases t; rfl

/-- Consecutive filter writes keep only the last. -/
@[simp] theorem ActionTree.withFilters_withFilters (t : ActionTree)
    (f g : List FilterAction) :
    (t.withFilters f).withFilters g = t.withFilters g := by
  cases t; rfl

/-- Looking the pushed-into relation up after `upsertRelFilter`: a
missing key gains a fresh synthesized entry holding only the shifted
filter; a present key keeps its specification with the shifted filter
appended. -/
theorem alookup_upsert_self (s : Option (List String)) (head : String)
    (f : FilterAction) :
    ∀ rels, alookup (upsertRelFilter s head f rels) head =
      some (match alookup rels head with
            | none => (ActionTree.empty.withSelect s).withFilters [f]
            | some t => t.withFilters (t.filters ++ [f])) := by
  intro rels
  induction rels with
  | nil => simp [upsertRelFilter, alookup]
  | cons p rest ih =>
      obtain ⟨n, t⟩ := p
      by_cases hn : n = head
      · subst hn; simp [upsertRelFilter, alookup]
      · simp [upsertRelFilter, alookup, hn, ih]

/-- `upsertRelFilter` leaves every other key unchanged. -/
theorem alookup_upsert_other (s : Option (List String)) (head : String)
    (f : FilterAction) (r : String) (hne : r ≠ head) :
    ∀ rels, alookup (upsertRelFilter s head f rels) r = alookup rels r := by
  intro rels
  induction rels with
  | nil => simp [upsertRelFilter, alookup, Ne.symm hne]
  | cons p rest ih =>
      obtain ⟨n, t⟩ := p
      by_cases hn : n = head
      · subst hn
        simp [upsertRelFilter, alookup, Ne.symm hne]
      · simp only [upsertRelFilter, hn, if_false, alookup]
        by_cases hr : n = r <;> simp [hr, ih]

/-- Characterization of the partition loop's relations mapping at any
key: a key with no dotted filter is untouched; a missing key with
dotted filters gains a synthesized entry (select `synthSelect`) holding
exactly the shifted-down filters; a present key keeps its
specification with the shifted-down filters appended in order. -/
theorem partition_alookup (s : Option (List String)) (r : String) :
    ∀ (flts : List FilterAction) (rels : List (String × ActionTree)),
      alookup (partitionFilters s flts rels).relations r =
        match alookup rels r, shiftedFiltersFor r flts with
        | none, [] => none
        | none, f :: fs =>
            some ((ActionTree.empty.withSelect s).withFilters (f :: fs))
        | some t, fs => some (t.withFilters (t.filters ++ fs)) := by
  intro flts
  induction flts with
  | nil =>
      intro rels
      simp only [partitionFilters, shiftedFiltersFor, List.filter_nil,
        List.map_nil]
      cases h : alookup rels r <;> simp [h]
  | cons flt rest ih =>
      intro rels
      obtain ⟨fld, op, v⟩ := flt
      cases fld with
      | plain a =>
          simp only [partitionFilters]
          rw [ih rels]
          simp [shiftedFiltersFor, nestedHeadOf]
      | nested hd tl =>
          by_cases hh : hd = r
          · subst hh
            simp only [partitionFilters]
            rw [ih]
            rw [alookup_upsert_self]
            cases halook : alookup rels hd with
            | none =>
                simp only [halook]
                simp [shiftedFiltersFor, nestedHeadOf]
            | some t =>
                simp only [halook]
                simp [shiftedFiltersFor, nestedHeadOf]
          · simp only [partitionFilters]
            rw [ih]
            rw [alookup_upsert_other s hd _ r (fun h => hh h.symm)]
            have : shiftedFiltersFor r
                (⟨.nested hd tl, op, v⟩ :: rest) = shiftedFiltersFor r rest := by
              simp [shiftedFiltersFor, nestedHeadOf, hh]
            rw [this]

/-- The dotted-filter heads recorded in `_inner_cte`. -/
theorem partition_innerCte (s : Option (List String)) :
    ∀ (flts : List FilterAction) (rels : List (String × ActionTree)),
      (partitionFilters s flts rels).innerCte =
        flts.filterMap nestedHeadOf := by
  intro flts
  induction flts with
  | nil => intro rels; simp [partitionFilters]
  | cons flt rest ih =>
      intro rels
      obtain ⟨fld, op, v⟩ := flt
      cases fld with
      | plain a => simp [partitionFilters, nestedHeadOf, ih]
      | nested hd tl => simp [partitionFilters, nestedHeadOf, ih]

/-! Claim C2. -/

/-- Claim C2: for every resolved relation embedded in a parent JSON
object, a ONE_TO_MANY or MANY_TO_MANY relation with zero matching child
rows yields exactly the empty JSON array — and never null for any
number of matches — while a MANY_TO_ONE relation yields null with zero
matching rows and the single row's JSON object, unwrapped, with exactly
one match. -/
theorem claim_c2 :
    (∀ matched : List Json,
       relationJsonValue .ONETOMANY (cteObjFor matched) ≠ .ok .null ∧
       relationJsonValue .MANYTOMANY (cteObjFor matched) ≠ .ok .null) ∧
    relationJsonValue .ONETOMANY (cteObjFor []) = .ok (.arr []) ∧
    relationJsonValue .MANYTOMANY (cteObjFor []) = .ok (.arr []) ∧
    relationJsonValue .MANYTOONE (cteObjFor []) = .ok .null ∧
    (∀ o : Json, relationJsonValue .MANYTOONE (cteObjFor [o]) = .ok o) := by
  refine ⟨?_, rfl, rfl, rfl, fun o => rfl⟩
  intro matched
  constructor <;> cases matched <;> intro h <;>
    simp [relationJsonValue, relationAggCase, cteObjFor, jsonGroupArray,
      Bind.bind, Except.bind] at h

/-- OFFSET only ever drops a prefix of the grouped row set. -/
theorem applyOffset_sublist (o : Option Nat) (xs : List Row) :
    (applyOffset o xs).Sublist xs := by
  cases o with
  | none => exact List.Sublist.refl xs
  | some n =>
      by_cases hn : n = 0
      · simp only [applyOffset, hn, if_true]
        exact List.Sublist.refl xs
      · simp only [applyOffset, hn, if_false]
        exact List.drop_sublist n xs

/-- LIMIT only ever keeps a prefix of the row set. -/
theorem applyLimit_sublist (l : Option Nat) (xs : List Row) :
    (applyLimit l xs).Sublist xs := by
  cases l with
  | none => exact List.Sublist.refl xs
  | some n =>
      by_cases hn : n = 0
      · simp only [applyLimit, hn, if_true]
        exact List.Sublist.refl xs
      · simp only [applyLimit, hn, if_false]
        exact List.take_sublist n xs

/-- GROUP BY on the id column produces pairwise-distinct ids, none of
them among the already-seen ids. -/
theorem groupByIdAux_nodup :
    ∀ (rows : List Row) (seen : List Int),
      ((groupByIdAux seen rows).map Row.id).Nodup ∧
      ∀ i ∈ (groupByIdAux seen rows).map Row.id, i ∉ seen := by
  intro rows
  induction rows with
  | nil => intro seen; simp [groupByIdAux]
  | cons r rest ih =>
      intro seen
      by_cases hr : r.id ∈ seen
      · simpa [groupByIdAux, hr] using ih seen
      · have h2 := ih (r.id :: seen)
        refine ⟨?_, ?_⟩
        · simp only [groupByIdAux, hr, if_false, List.map_cons,
            List.nodup_cons]
          refine ⟨fun hmem => ?_, h2.1⟩
          exact (h2.2 r.id hmem) (by simp)
        · intro i hi
          simp only [groupByIdAux, hr, if_false, List.map_cons,
            List.mem_cons] at hi
          rcases hi with hi | hi
          · subst hi; exact hr
          · intro hiseen
            exact (h2.2 i hi) (by simp [hiseen])

/-! Claim C3. -/

/-- Claim C3: the select list ["*", "!name"] over the fixture entity
with fields id, name, age compiles to the projection id, age without
name; and in general every exclusion-prefixed entry resets the working
field list to the full non-relation field list before removing its one
referenced field, so that — provided the earlier exclusion entries
themselves raise no exception — the loop's outcome is determined by the
last exclusion alone, whatever the working list held before. -/
theorem claim_c3 :
    jsonQueryFieldToSelect serRoot ["*", "!name"] =
      .ok [⟨"id", "id"⟩, ⟨"age", "age"⟩] ∧
    ∀ (ser : Serializer) (xs ys : List String) (e : String)
      (acc : List SerializerField),
      hasExcludeMarker e = true →
      (∀ y ∈ ys, hasExcludeMarker y = false) →
      (∀ x ∈ xs, hasExcludeMarker x = true → exclStepOk ser x) →
      applyExclusions ser (xs ++ e :: ys) acc =
        (do
          let fld ← getSerializerField ser (stripExcludeMarker e)
          listRemove (nonRelationFields ser) fld) := by
  refine ⟨rfl, ?_⟩
  intro ser xs ys e acc he hys hxs
  exact applyExclusions_last ser ys e he hys xs hxs acc

/-- Witness for claim C3: over the fixture serializer, the exclusion
list ["!age", "!name"] removes only name — the effect of the earlier
exclusion of age does not survive. -/
theorem claim_c3_witness :
    applyExclusions serRoot ["!age", "!name"] [] =
      .ok [⟨"id", "id"⟩, ⟨"age", "age"⟩] := by
  have h := claim_c3.2 serRoot ["!age"] [] "!name" [] (by decide)
    (by simp)
    (fun x hx _ => by
      have hx' : x = "!age" := by simpa using hx
      subst hx'
      exact ⟨[⟨"id", "id"⟩, ⟨"name", "name"⟩], rfl⟩)
  exact h.trans (by rfl)

/-- `set.add` puts the element in the set. -/
theorem insertCol_self_mem (l : List String) (c : String) :
    c ∈ insertCol l c := by
  by_cases hc : c ∈ l
  · simp [insertCol, hc]
  · simp [insertCol, hc]

/-- The shifted-down image of a dotted filter lands in the filters
pushed into its head relation. -/
theorem shifted_mem (r : String) (flts : List FilterAction)
    (f0 : FilterAction) (hmem : f0 ∈ flts)
    (hhead : nestedHeadOf f0 = some r) :
    (⟨f0.field.shiftDown, f0.op, f0.value⟩ : FilterAction) ∈
      shiftedFiltersFor r flts := by
  unfold shiftedFiltersFor
  exact List.mem_map.mpr
    ⟨f0, List.mem_filter.mpr ⟨hmem, by simp [hhead]⟩, rfl⟩

/-- A successful association-list lookup implies the key is present. -/
theorem alookup_some_mem {α : Type} {l : List (String × α)} {r : String}
    {t : α} (h : alookup l r = some t) : r ∈ l.map Prod.fst := by
  by_contra hc
  rw [(alookup_eq_none l r).mpr hc] at h
  cases h

/-- `_resolve_relationships` emits one join per relation entry, named
after it, in mapping order. -/
theorem resolveRelList_names :
    ∀ (fuel : Nat) (reg : Registry) (ser : Serializer)
      (rels : List (String × ActionTree))
      (res : List (String × ValExpr) × List String),
      resolveRelList fuel reg ser rels = .ok res →
      res.2 = rels.map Prod.fst := by
  intro fuel
  induction fuel with
  | zero =>
      intro reg ser rels res h
      simp [resolveRelList] at h
  | succ f ih =>
      intro reg ser rels res h
      cases rels with
      | nil =>
          simp only [resolveRelList, Except.ok.injEq] at h
          rw [← h]
          rfl
      | cons p rest =>
          obtain ⟨name, relTree⟩ := p
          simp only [resolveRelList] at h
          simp only [except_bind_ok] at h
          obtain ⟨sf, _, sqlRel, _, rso, _, rs, _, cte, _, entry, _, res',
            hres', hfin⟩ := h
          injection hfin with hfin
          subst hfin
          simp [ih reg ser rest res' hres']

/-- Inversion of a successful root compilation to its join
construction: the joins come from the resolved relations of the
partitioned specification, flagged INNER exactly on membership in
`_inner_cte`. -/
theorem jsonQuery_joins (fuel : Nat) (reg : Registry) (ser : Serializer)
    (qo : ActionTree) (cq : CompiledQuery)
    (h : jsonQuery fuel reg ser qo = .ok cq) :
    ∃ res, resolveRelList fuel reg ser
        (partitionFilters none qo.filters qo.relations).relations =
        .ok res ∧
      cq.joins = res.2.map (fun n =>
        (n, decide
          (n ∈ (partitionFilters none qo.filters qo.relations).innerCte))) := by
  unfold jsonQuery at h
  simp only [except_bind_ok] at h
  obtain ⟨a, ha, fts, hfts, flds, hflds, h0, hh0, dflts, hdflts, res,
    hres, hfk, hhfk, sres, hsres, gb, hgb, hfin⟩ := h
  injection hfin with hfin
  subst hfin
  exact ⟨res, hres, rfl⟩

/-- Inversion of a successful relation compilation to its join
construction, one fuel step down. -/
theorem relationSelect_joins (fuel : Nat) (reg : Registry)
    (ser : Serializer) (pm : Nat) (rel : SqlRelation) (action : ActionTree)
    (cte : RelCte) (h : relationSelect fuel reg ser pm rel action = .ok cte) :
    ∃ f res, resolveRelList f reg ser
        (partitionFilters (some ["id"]) action.filters
          action.relations).relations = .ok res ∧
      cte.joins = res.2.map (fun n =>
        (n, decide (n ∈ (partitionFilters (some ["id"]) action.filters
          action.relations).innerCte))) := by
  cases fuel with
  | zero => simp [relationSelect] at h
  | succ f =>
      simp only [relationSelect] at h
      simp only [except_bind_ok] at h
      obtain ⟨proj, hproj, ob, hob, jf, hjf, fi, hfi, u, hu, res, hres,
        hfin⟩ := h
      injection hfin with hfin
      subst hfin
      exact ⟨f, res, hres, rfl⟩

/-- `_inner_cte` holds exactly the heads of the dotted filters. -/
theorem inner_iff (s : Option (List String)) (flts : List FilterAction)
    (rels : List (String × ActionTree)) (r : String) :
    r ∈ (partitionFilters s flts rels).innerCte ↔
      ∃ flt ∈ flts, nestedHeadOf flt = some r := by
  rw [partition_innerCte]
  exact List.mem_filterMap

/-- Every dotted-filter head is a key of the partitioned relations
mapping. -/
theorem partition_mem_keys (s : Option (List String)) (r : String)
    (flts : List FilterAction) (rels : List (String × ActionTree))
    (hdot : ∃ flt ∈ flts, nestedHeadOf flt = some r) :
    ∃ t, alookup (partitionFilters s flts rels).relations r = some t := by
  obtain ⟨f0, hmem, hhead⟩ := hdot
  have hchar := partition_alookup s r flts rels
  have hsm := shifted_mem r flts f0 hmem hhead
  cases halook : alookup rels r with
  | none =>
      rw [halook] at hchar
      cases hs : shiftedFiltersFor r flts with
      | nil => rw [hs] at hsm; cases hsm
      | cons f fs => rw [hs] at hchar; exact ⟨_, hchar⟩
  | some t => rw [halook] at hchar; exact ⟨_, hchar⟩

/-- The join flags of one compilation level: a joined relation is INNER
exactly when some dotted filter of the level targets it, and every
dotted-filter target is joined INNER. -/
theorem joins_characterize (flts : List FilterAction)
    (rels : List (String × ActionTree)) (s : Option (List String))
    (names : List String) (joins : List (String × Bool))
    (hnames : names = (partitionFilters s flts rels).relations.map Prod.fst)
    (hjoins : joins = names.map (fun n =>
      (n, decide (n ∈ (partitionFilters s flts rels).innerCte)))) :
    (∀ r b, (r, b) ∈ joins →
       (b = true ↔ ∃ flt ∈ flts, nestedHeadOf flt = some r)) ∧
    (∀ r, (∃ flt ∈ flts, nestedHeadOf flt = some r) → (r, true) ∈ joins) := by
  constructor
  · intro r b hmem
    rw [hjoins] at hmem
    obtain ⟨n, hn, heq⟩ := List.mem_map.mp hmem
    injection heq with hn1 hn2
    subst hn1
    rw [← hn2]
    simp only [decide_eq_true_eq]
    exact inner_iff s flts rels n
  · intro r hdot
    obtain ⟨t, ht⟩ := partition_mem_keys s r flts rels hdot
    have hkey : r ∈ names := by
      rw [hnames]
      exact alookup_some_mem ht
    have hdec : decide (r ∈ (partitionFilters s flts rels).innerCte) = true := by
      simp only [decide_eq_true_eq]
      exact (inner_iff s flts rels r).mpr hdot
    rw [hjoins]
    exact List.mem_map.mpr ⟨r, hkey, by rw [hdec]⟩

/-- A LEFT OUTER join to a relation fragment preserves every parent
row. -/
theorem joinedParents_outer (parents : List Row) (keys : List Int) :
    joinedParents true parents keys = parents := by
  simp [joinedParents]

/-- An INNER join to a relation fragment keeps exactly the parents with
a matching fragment key. -/
theorem joinedParents_inner (parents : List Row) (keys : List Int)
    (p : Row) :
    p ∈ joinedParents false parents keys ↔ p ∈ parents ∧ p.id ∈ keys := by
  simp [joinedParents, List.mem_filter]

/-- A parent id occurs among the fragment keys exactly when some child
row satisfies the fragment's filters and carries that id in the
foreign-key column. -/
theorem fragKeys_mem (children : List Row) (fk : String)
    (flts : List ResolvedFilter) (p : Row) :
    p.id ∈ fragKeys children fk flts ↔
      ∃ c ∈ children, evalFilters flts c = true ∧
        alookup c.cols fk = some p.id := by
  simp only [fragKeys, List.mem_filterMap, List.mem_filter]
  constructor
  · rintro ⟨c, ⟨hc, hf⟩, hfk⟩
    exact ⟨c, hc, hf, hfk⟩
  · rintro ⟨c, hc, hf, hfk⟩
    exact ⟨c, ⟨hc, hf⟩, hfk⟩

/-! Claim C1. -/

/-- Claim C1: at both compilation levels, every relation joined into the
compiled query is joined INNER exactly when it is the target of a
dotted filter of its parent specification (and every dotted-filter
target does receive an INNER join); consequently, since a LEFT OUTER
join preserves every parent row while an INNER join keeps exactly the
parents with a matching fragment key — and a fragment key exists
exactly for parents with a qualifying related row — a dotted filter
such as a.b = 5 excludes parents with no qualifying related row, while
a relation requested only for projection preserves parents with zero
related rows. -/
theorem claim_c1 :
    (∀ (fuel : Nat) (reg : Registry) (ser : Serializer) (qo : ActionTree)
       (cq : CompiledQuery),
       jsonQuery fuel reg ser qo = .ok cq →
       (∀ r b, (r, b) ∈ cq.joins →
          (b = true ↔ ∃ flt ∈ qo.filters, nestedHeadOf flt = some r)) ∧
       (∀ r, (∃ flt ∈ qo.filters, nestedHeadOf flt = some r) →
          (r, true) ∈ cq.joins)) ∧
    (∀ (fuel : Nat) (reg : Registry) (ser : Serializer) (pm : Nat)
       (rel : SqlRelation) (action : ActionTree) (cte : RelCte),
       relationSelect fuel reg ser pm rel action = .ok cte →
       (∀ r b, (r, b) ∈ cte.joins →
          (b = true ↔ ∃ flt ∈ action.filters, nestedHeadOf flt = some r)) ∧
       (∀ r, (∃ flt ∈ action.filters, nestedHeadOf flt = some r) →
          (r, true) ∈ cte.joins)) ∧
    (∀ (parents : List Row) (keys : List Int),
       joinedParents true parents keys = parents) ∧
    (∀ (parents : List Row) (keys : List Int) (p : Row),
       p ∈ joinedParents false parents keys ↔ p ∈ parents ∧ p.id ∈ keys) ∧
    (∀ (children : List Row) (fk : String) (flts : List ResolvedFilter)
       (p : Row),
       p.id ∈ fragKeys children fk flts ↔
         ∃ c ∈ children, evalFilters flts c = true ∧
           alookup c.cols fk = some p.id) := by
  refine ⟨?_, ?_, joinedParents_outer, joinedParents_inner, fragKeys_mem⟩
  · intro fuel reg ser qo cq h
    obtain ⟨res, hres, hjoins⟩ := jsonQuery_joins fuel reg ser qo cq h
    exact joins_characterize qo.filters qo.relations none res.2 cq.joins
      (resolveRelList_names fuel reg ser _ res hres) hjoins
  · intro fuel reg ser pm rel action cte h
    obtain ⟨f, res, hres, hjoins⟩ :=
      relationSelect_joins fuel reg ser pm rel action cte h
    exact joins_characterize action.filters action.relations (some ["id"])
      res.2 cte.joins (resolveRelList_names f reg ser _ res hres) hjoins

/-- Witness for claim C1: the dotted filter a.b = 5 compiles to an INNER
join to `a`; the projection-only request compiles to a LEFT OUTER join
to `a`; and the join semantics at concrete rows. -/
theorem claim_c1_witness :
    jsonQuery 9 regFix serRoot qoDot = .ok cqDot ∧
    ("a", true) ∈ cqDot.joins ∧
    jsonQuery 9 regFix serRoot qoProj = .ok cqProj ∧
    (("a", false) ∈ cqProj.joins ∧
      ¬ ∃ flt ∈ qoProj.filters, nestedHeadOf flt = some "a") ∧
    joinedParents true tenRows [] = tenRows ∧
    ((⟨1, []⟩ : Row) ∈ joinedParents false tenRows [] ↔
      (⟨1, []⟩ : Row) ∈ tenRows ∧ (1 : Int) ∈ ([] : List Int)) := by
  have h := claim_c1
  refine ⟨rfl, ?_, rfl, ⟨by decide, ?_⟩, ?_, ?_⟩
  · exact (h.1 9 regFix serRoot qoDot cqDot rfl).2 "a"
      ⟨fltAB, by decide, rfl⟩
  · intro hex
    have hfalse := ((h.1 9 regFix serRoot qoProj cqProj rfl).1 "a" false
      (by decide)).mpr hex
    cases hfalse
  · exact h.2.2.1 tenRows []
  · exact h.2.2.2.1 tenRows [] ⟨1, []⟩

/-! Claim C4. -/

/-- Counterexample to claim C4: at the root compiler a specification
whose select is None does not get the full non-relation projection:
`_json_query` iterates `qo.select` at line 75 and a None select raises
TypeError, so no projection is compiled at all. -/
theorem claim_c4_counterexample :
    jsonQuery 9 regFix serRoot (.mk none [] none [] none none) =
      .error .typeErrorNoneIter := rfl

/-- Claim C4 as amended: in the relation resolver a select-None (or
empty) specification projects the whole model row and every
non-relation field enters the JSON object; a truthy select always gets
the id column added to the inner query's column set; and at the root
compiler the id column is selected (hidden) whenever it is absent from
the requested aliases.  At the root compiler itself a None select
raises TypeError instead of projecting all fields. -/
theorem claim_c4 :
    (∀ (ser : Serializer) (hp : Bool) (dir : RelationshipDirection)
       (cjc : String) (flts : List FilterAction),
       relationSelectFields ser hp dir cjc flts none =
         .ok (ser.modelColumns, nonRelationFields ser)) ∧
    (∀ (ser : Serializer) (hp : Bool) (dir : RelationshipDirection)
       (cjc : String) (flts : List FilterAction) (s0 : String)
       (ss : List String) (cols : List String) (fts : List SerializerField),
       relationSelectFields ser hp dir cjc flts (some (s0 :: ss)) =
         .ok (cols, fts) → "id" ∈ cols) ∧
    (∀ (fuel : Nat) (reg : Registry) (ser : Serializer) (qo : ActionTree)
       (cq : CompiledQuery) (sel : List String),
       jsonQuery fuel reg ser qo = .ok cq → qo.select = some sel →
       "id" ∉ sel → "id" ∈ cq.hidden) := by
  refine ⟨fun _ _ _ _ _ => rfl, ?_, ?_⟩
  · intro ser hp dir cjc flts s0 ss cols fts hok
    unfold relationSelectFields at hok
    simp only [except_bind_ok] at hok
    obtain ⟨base, hbase, fts', hfts, cols0, hcols0, fld2, hfld2, idCol,
      hid, hfin⟩ := hok
    have hidc : idCol = "id" := getDbField_ok hid
    subst hidc
    simp only [Except.ok.injEq, Prod.mk.injEq] at hfin
    obtain ⟨h1, _⟩ := hfin
    rw [← h1]
    exact insertCol_self_mem _ "id"
  · intro fuel reg ser qo cq sel h hsel hid
    unfold jsonQuery at h
    simp only [except_bind_ok] at h
    obtain ⟨a, ha, fts, hfts, flds, hflds, h0, hh0, dflts, hdflts, res,
      hres, hfk, hhfk, sres, hsres, gb, hgb, hfin⟩ := h
    rw [hsel] at ha
    simp only [selectOrRaise, Except.ok.injEq] at ha
    subst ha
    unfold jsonQueryHiddenId at hh0
    rw [if_neg hid] at hh0
    simp only [except_bind_ok] at hh0
    obtain ⟨c, hc, hceq⟩ := hh0
    have hcid : c = "id" := getDbField_ok hc
    subst hcid
    injection hceq with hceq
    injection hfin with hfin
    subst hfin
    simp [← hceq]

/-- Witness for claim C4: the relation-level projection of the child
fixture with select ["b"] carries the id column, and the compiled root
query for the dotted-filter fixture hides the id column. -/
theorem claim_c4_witness :
    relationSelectFields serChild true .ONETOMANY "root_id" []
      (some ["b"]) = .ok (["b", "root_id", "id"], [⟨"b", "b"⟩]) ∧
    ("id" : String) ∈ ["b", "root_id", "id"] ∧
    jsonQuery 9 regFix serRoot qoDot = .ok cqDot ∧ "id" ∈ cqDot.hidden := by
  refine ⟨rfl, ?_, rfl, ?_⟩
  · exact claim_c4.2.1 serChild true .ONETOMANY "root_id" [] "b" [] _ _ rfl
  · exact claim_c4.2.2 9 regFix serRoot qoDot cqDot ["*"] rfl rfl (by decide)

/-! Claim C5. -/

/-- Claim C5: a dotted filter whose head names a relation absent from
the relations mapping synthesizes that relation — with select None at
the root compiler level and select ["id"] during relation resolution —
and the entry's filters are exactly the shifted-down remainders of the
dotted filters aimed at it, the given filter's remainder among them.
The partition result is what `_json_query` and `_relation_select` hand
to `_resolve_relationships`, so the entry exists before resolution of
the level completes. -/
theorem claim_c5 :
    ∀ (flts : List FilterAction) (rels : List (String × ActionTree))
      (r : String) (f0 : FilterAction),
      alookup rels r = none → f0 ∈ flts → nestedHeadOf f0 = some r →
      (∃ t, alookup (partitionFilters none flts rels).relations r = some t ∧
         t.select = none ∧ t.filters = shiftedFiltersFor r flts ∧
         (⟨f0.field.shiftDown, f0.op, f0.value⟩ : FilterAction) ∈ t.filters) ∧
      (∃ t, alookup (partitionFilters (some ["id"]) flts rels).relations r =
         some t ∧
         t.select = some ["id"] ∧ t.filters = shiftedFiltersFor r flts ∧
         (⟨f0.field.shiftDown, f0.op, f0.value⟩ : FilterAction) ∈ t.filters) := by
  intro flts rels r f0 hnone hmem hhead
  have hsm := shifted_mem r flts f0 hmem hhead
  have key : ∀ s : Option (List String),
      ∃ t, alookup (partitionFilters s flts rels).relations r = some t ∧
        t.select = s ∧ t.filters = shiftedFiltersFor r flts := by
    intro s
    have hchar := partition_alookup s r flts rels
    rw [hnone] at hchar
    cases hs : shiftedFiltersFor r flts with
    | nil => rw [hs] at hsm; cases hsm
    | cons f fs =>
        rw [hs] at hchar
        exact ⟨_, hchar, by simp, by simp [hs]⟩
  obtain ⟨t1, h1, h1s, h1f⟩ := key none
  obtain ⟨t2, h2, h2s, h2f⟩ := key (some ["id"])
  exact ⟨⟨t1, h1, h1s, h1f, by rw [h1f]; exact hsm⟩,
         ⟨t2, h2, h2s, h2f, by rw [h2f]; exact hsm⟩⟩

/-- Witness for claim C5 at the dotted filter a.b = 5 over an empty
relations mapping. -/
theorem claim_c5_witness :
    (∃ t, alookup (partitionFilters none [fltAB] []).relations "a" =
       some t ∧
       t.select = none ∧ t.filters = shiftedFiltersFor "a" [fltAB] ∧
       (⟨fltAB.field.shiftDown, fltAB.op, fltAB.value⟩ : FilterAction) ∈
         t.filters) ∧
    (∃ t, alookup (partitionFilters (some ["id"]) [fltAB] []).relations "a" =
       some t ∧
       t.select = some ["id"] ∧ t.filters = shiftedFiltersFor "a" [fltAB] ∧
       (⟨fltAB.field.shiftDown, fltAB.op, fltAB.value⟩ : FilterAction) ∈
         t.filters) :=
  claim_c5 [fltAB] [] "a" fltAB rfl (by simp) rfl

/-! Claim C6. -/

/-- Claim C6, evaluated on the code: the dotted-sort walk does not
behave as specified.  On sort path a.b (relation `a`, then scalar field
b of the child entity) compilation raises a KeyError: after handling
segment `a` the source evaluates
`get_prop_serializer(serializer.model, field_stack[-1])`, looking the
NEXT segment `b` up among the ROOT model's relationships, where it does
not exist.  And on a path such as a.a whose every segment happens to
name a root relation, the walk synthesizes a relation entry for the
FINAL segment too (attaching a forwarded sort to it), resolves the
final field against the ROOT serializer rather than the final segment's
entity, and the relation entries it synthesizes are inserted only after
relation resolution already ran, so they are never compiled. -/
theorem claim_c6 :
    jsonQuery 9 regFix serRoot
      (.mk (some ["*"]) [] (some ⟨.nested "a" ["b"], .ASC⟩) [] none none) =
      .error (.keyError "b") ∧
    jsonQuery 9 regFix serRoot
      (.mk (some ["*"]) [] (some ⟨.nested "a" ["a"], .ASC⟩) [] none none) =
      .ok ⟨[("id", .col "id"), ("name", .col "name"), ("age", .col "age")],
           ["id"], [], [], some ("a", .ASC), none, none, "id",
           [("a", .mk none [] (some ⟨.plain "a", .ASC⟩) [] none none)]⟩ :=
  ⟨rfl, rfl⟩

/-! Claim C7. -/

/-- Claim C7: `_relation_select` never reads offset or limit, so
pagination applies only at the outermost compilation level; the root
query records offset, limit and the GROUP BY id clause, so that — with
offset 2 and limit 3 over ten matching root rows in ascending id order
and no explicit sort — exactly the 3rd through 5th rows come back; and
the grouped, paginated result always carries pairwise-distinct root
ids, one row per matching root entity. -/
theorem claim_c7 :
    (∀ (fuel : Nat) (reg : Registry) (ser : Serializer) (pm : Nat)
       (rel : SqlRelation) (action : ActionTree) (o l : Option Nat),
       relationSelect fuel reg ser pm rel (action.withPagination o l) =
         relationSelect fuel reg ser pm rel action) ∧
    (∃ cq, jsonQuery 9 regFix serRoot qoPage = .ok cq ∧
       cq.offset = some 2 ∧ cq.limit = some 3 ∧ cq.groupBy = "id" ∧
       execCompiled cq tenRows = [⟨3, []⟩, ⟨4, []⟩, ⟨5, []⟩]) ∧
    (∀ (cq : CompiledQuery) (rows : List Row),
       ((execCompiled cq rows).map Row.id).Nodup) := by
  refine ⟨?_, ?_, ?_⟩
  · intro fuel reg ser pm rel action o l
    cases fuel <;> cases action <;> rfl
  · exact ⟨_, rfl, rfl, rfl, rfl, rfl⟩
  · intro cq rows
    have hg :=
      (groupByIdAux_nodup (rows.filter (evalFilters cq.whereFilters)) []).1
    have h1 : (applyLimit cq.limit
        (applyOffset cq.offset
          (groupById (rows.filter (evalFilters cq.whereFilters))))).Sublist
        (groupById (rows.filter (evalFilters cq.whereFilters))) :=
      (applyLimit_sublist _ _).trans (applyOffset_sublist _ _)
    exact List.Nodup.sublist (List.Sublist.map Row.id h1) hg

/-! Claim C8. -/

/-- Counterexample to claim C8: a relation with an unsupported direction
that is only the target of a dotted filter — synthesized with select
None — compiles without any error: the whole root query is produced,
with the unsupported-direction relation joined INNER, because the
exhaustive match of `_resolve_relationships` is guarded by
`select is not None` and every cardinality branch of `_relation_select`
is a non-exhaustive equality test. -/
theorem claim_c8_counterexample :
    jsonQuery 9 regO serRootO qoDotO = .ok cqDotO ∧
    relO.direction = .other :=
  ⟨rfl, rfl⟩

/-- Claim C8 as amended: an unsupported cardinality is rejected only at
the payload-building match of `_resolve_relationships` (raising
SQLGenerationException), which runs only for relations whose select is
not None; `_relation_select` itself branches on cardinality with
equality tests that silently treat an unsupported value exactly like a
non-MANY_TO_MANY cardinality, so a select-None relation with an
unsupported cardinality compiles silently. -/
theorem claim_c8 :
    relationAggCase .other = .error .sqlGeneration ∧
    jsonQuery 9 regO serRootO qoSelR = .error .sqlGeneration ∧
    (∀ (fuel : Nat) (reg : Registry) (ser : Serializer) (pm tm : Nat)
       (cjc pjc : String) (action : ActionTree),
       relationSelect fuel reg ser pm ⟨.other, tm, cjc, pjc⟩ action =
         relationSelect fuel reg ser pm ⟨.ONETOMANY, tm, cjc, pjc⟩ action) := by
  refine ⟨rfl, rfl, ?_⟩
  intro fuel reg ser pm tm cjc pjc action
  cases fuel <;> rfl

/-! Claim C9. -/

/-- Counterexample to claim C9: registering a second serializer for the
already-registered model 0 does not fail; it silently replaces the
registry entry, so the registry maps model 0 to the newer serializer. -/
theorem claim_c9_counterexample :
    registerSerializer (registerSerializer [] 0 serRoot) 0 serRootAlt =
      [(0, serRootAlt)] ∧ serRootAlt ≠ serRoot :=
  ⟨rfl, by decide⟩

/-- Claim C9 as amended: registering a serializer never fails; a second
registration for the same entity type silently overwrites the previous
one, so the registry maps each entity type to the most recently
registered serializer. -/
theorem claim_c9 :
    ∀ (reg : Registry) (m : Nat) (s : Serializer),
      getSerializer (registerSerializer reg m s) m = some s := by
  intro reg m s
  induction reg with
  | nil => simp [registerSerializer, getSerializer, regLookup]
  | cons p rest ih =>
      obtain ⟨k, v⟩ := p
      by_cases hk : k = m <;>
        simp [registerSerializer, getSerializer, regLookup, hk] at ih ⊢
      exact ih

/-! Claim C10. -/

/-- Claim C10: for every entity type with no registered serializer,
`get_serializer` returns None rather than raising, and
`get_prop_serializer` — which calls a method on that result without a
None check — raises AttributeError there. -/
theorem claim_c10 :
    ∀ (reg : Registry) (t : Nat) (prop : String),
      t ∉ reg.map Prod.fst →
      getSerializer reg t = none ∧
      getPropSerializer reg t prop = .error .attributeErrorNone := by
  intro reg t prop h
  have hl : regLookup reg t = none := (regLookup_eq_none reg t).mpr h
  refine ⟨hl, ?_⟩
  simp [getPropSerializer, getSerializer, hl]

/-- Witness for claim C10 at the fixture registry and the unregistered
model 7. -/
theorem claim_c10_witness :
    getSerializer regFix 7 = none ∧
    getPropSerializer regFix 7 "a" = .error .attributeErrorNone :=
  claim_c10 regFix 7 "a" (by decide)

end QueryParse
